import Mathlib

/-!
Verification of the client-side transcript search engine embedded in
`src/app.py` (the JavaScript search logic inside the generated HTML page).
Strings are modelled as `List Char`; JavaScript `undefined` for a missing
utterance `text` field is modelled as `Option`, and the `TypeError` raised
by calling a method on `undefined` is modelled with `Except`.
-/

namespace TranscriptSearch

/-- Convert a Lean string literal to the `List Char` representation used
throughout this development. -/
def chars (s : String) : List Char :=
  s.data

/-- JavaScript `String.prototype.toLowerCase`, character by character
(the corpus is ASCII transcript text). -/
def lowerStr (s : List Char) : List Char :=
  s.map Char.toLower

/-- Case folding applied by the search code: the text is used verbatim when
`caseSensitive` is set and lowercased otherwise. -/
def foldChars (caseSensitive : Bool) (s : List Char) : List Char :=
  if caseSensitive then s else lowerStr s

/-- Boolean prefix test: `isPrefixB p s` holds when `p` is an initial
segment of `s`. -/
def isPrefixB : List Char → List Char → Bool
  | [], _ => true
  | _ :: _, [] => false
  | a :: p, b :: s => a = b && isPrefixB p s

/-- JavaScript `String.prototype.trim` on the whitespace characters that can
occur in the transcript corpus. -/
def jsTrim (s : List Char) : List Char :=
  ((s.dropWhile Char.isWhitespace).reverse.dropWhile Char.isWhitespace).reverse

/-- JavaScript `remaining.split(';')`: split a string at every semicolon,
keeping empty pieces. -/
def splitOnSemicolon : List Char → List (List Char)
  | [] => [[]]
  | c :: rest =>
    if c = ';' then [] :: splitOnSemicolon rest
    else
      match splitOnSemicolon rest with
      | [] => [[c]]
      | p :: ps => (c :: p) :: ps

/-- One pass of the global regex `/"([^"]+)"/g` over the query, as executed by
the `while ((match = quoteRegex.exec(query)) !== null)` loop in
`parseSearchQuery` (src/app.py): the regex engine finds, left to right, a
double quote followed by one or more non-quote characters followed by a
double quote; an attempt that fails at a quote with no non-empty quote-free
content after it resumes at the next character, so an empty pair `""` yields
no match and its second quote is retried as an opening quote.  The scan is
implemented as a character automaton: `acc = none` means "outside a quoted
region", `acc = some a` means "after an opening quote, having read the
reversed content `a`".  Returns the captured contents (group 1 of each
match), in order of appearance. -/
def scanPhrases : List Char → Option (List Char) → List (List Char)
  | [], _ => []
  | c :: rest, none =>
    if c = '"' then scanPhrases rest (some []) else scanPhrases rest none
  | c :: rest, some acc =>
    if c = '"' then
      if acc = [] then scanPhrases rest (some [])
      else acc.reverse :: scanPhrases rest none
    else scanPhrases rest (some (c :: acc))

/-- All phrase contents captured by the quote regex over the query. -/
def extractPhrases (query : List Char) : List (List Char) :=
  scanPhrases query none

/-- JavaScript `s.replace(pat, '')` for a string pattern `pat`: remove the
first (leftmost) occurrence of `pat` from `s`; if `pat` does not occur,
return `s` unchanged. -/
def removeFirst (pat : List Char) : List Char → List Char
  | [] => []
  | c :: rest =>
    if pat ≠ [] ∧ isPrefixB pat (c :: rest) then List.drop (pat.length - 1) rest
    else c :: removeFirst pat rest

/-- Kind of a parsed search term: a double-quoted phrase or a
semicolon-separated keyword. -/
inductive TermType where
  | phrase
  | keyword
deriving DecidableEq

/-- A parsed search term (`{ type, value }` object in `parseSearchQuery`). -/
structure SearchTerm where
  type : TermType
  value : List Char
deriving DecidableEq

/-- `parseSearchQuery` from src/app.py: extract every quoted phrase as a
`phrase` term, remove each matched occurrence (quotes included) from the
working string with `remaining.replace(match[0], '')`, then split the
remainder on semicolons, trim each piece and keep the non-empty pieces as
`keyword` terms.  Phrase terms are pushed during the regex loop and keyword
terms afterwards, so the output lists all phrases first, each in order of
appearance.  (The source filters with `s.length > 0` and re-checks
`part.length > 0` inside the loop; the second check is redundant.) -/
def parseSearchQuery (query : List Char) : List SearchTerm :=
  let phrases := extractPhrases query
  let remaining :=
    phrases.foldl (fun r content => removeFirst ('"' :: (content ++ ['"'])) r) query
  let parts :=
    ((splitOnSemicolon remaining).map jsTrim).filter (fun s => s.length > 0)
  phrases.map (fun content => SearchTerm.mk TermType.phrase content) ++
    parts.map (fun part => SearchTerm.mk TermType.keyword part)

/-- JavaScript `searchText.includes(searchValue)`: substring containment,
scanning for a position where the pattern is a prefix of the rest. -/
def jsIncludes : List Char → List Char → Bool
  | [], pat => isPrefixB pat []
  | c :: rest, pat => isPrefixB pat (c :: rest) || jsIncludes rest pat

/-- `matchesAllTerms` from src/app.py: the (case-folded) text must contain
the (case-folded) value of every term; the `for` loop with an early
`return false` is an `all`.  An empty term list makes the loop body
unreachable and the function returns `true`. -/
def matchesAllTerms (text : List Char) (terms : List SearchTerm)
    (isCaseSensitive : Bool) : Bool :=
  let searchText := foldChars isCaseSensitive text
  terms.all fun term => jsIncludes searchText (foldChars isCaseSensitive term.value)

/-- Position of the first occurrence of `pat` in `s` (`s.indexOf(pat)` in
JavaScript, with `some i` for a hit at index `i` and `none` for `-1`). -/
def firstMatchPos (pat : List Char) : List Char → Option Nat
  | [] => if pat = [] then some 0 else none
  | c :: rest =>
    if isPrefixB pat (c :: rest) then some 0
    else (firstMatchPos pat rest).map (fun i => i + 1)

/-- JavaScript `searchText.indexOf(searchValue, pos)`: the least index
`i ≥ start` at which `pat` occurs in `s`, obtained by searching the suffix
`s.drop start` and shifting. -/
def jsIndexOf (s pat : List Char) (start : Nat) : Option Nat :=
  (firstMatchPos pat (List.drop start s)).map (fun i => i + start)

theorem firstMatchPos_lt_length {pat : List Char} (hpat : pat ≠ []) :
    ∀ {s : List Char} {j : Nat}, firstMatchPos pat s = some j → j < s.length := by
  intro s
  induction s with
  | nil => intro j h; simp [firstMatchPos, hpat] at h
  | cons c rest ih =>
    intro j h
    by_cases hpre : isPrefixB pat (c :: rest) = true
    · simp [firstMatchPos, hpre] at h
      simp
      omega
    · simp [firstMatchPos, hpre] at h
      obtain ⟨i, hi, rfl⟩ := h
      have := ih hi
      simp
      omega

theorem jsIndexOf_some {s pat : List Char} {start i : Nat} (hpat : pat ≠ [])
    (h : jsIndexOf s pat start = some i) : start ≤ i ∧ i < s.length := by
  simp [jsIndexOf] at h
  obtain ⟨j, hj, rfl⟩ := h
  have hlt := firstMatchPos_lt_length hpat hj
  simp at hlt
  omega

/-- The `while ((pos = searchText.indexOf(searchValue, pos)) !== -1)` loop
of `countMatches` in src/app.py: starting at `pos`, repeatedly find the next
occurrence and resume searching immediately after its end
(`pos += searchValue.length`).  For an empty pattern the JavaScript loop
never terminates (`indexOf` keeps returning `pos`); the parser never
produces an empty term value (see the theorem for claim C10), and the model
returns 0 on that unreachable argument. -/
def countTermLoop (s pat : List Char) (pos : Nat) : Nat :=
  if hpat : pat = [] then 0
  else
    match hfind : jsIndexOf s pat pos with
    | none => 0
    | some i => 1 + countTermLoop s pat (i + pat.length)
termination_by s.length + 1 - pos
decreasing_by
  have h := jsIndexOf_some hpat hfind
  have hlen : 1 ≤ pat.length := by
    cases pat with
    | nil => exact absurd rfl hpat
    | cons a l => simp
  omega

/-- `countMatches` from src/app.py: for each term, count the non-overlapping
left-to-right occurrences of its (case-folded) value in the (case-folded)
text via the `indexOf` loop, and accumulate the counts over all terms. -/
def countMatches (text : List Char) (terms : List SearchTerm)
    (isCaseSensitive : Bool) : Nat :=
  let searchText := foldChars isCaseSensitive text
  terms.foldl
    (fun count term =>
      count + countTermLoop searchText (foldChars isCaseSensitive term.value) 0)
    0

/-- Modelled from the spec, for comparison with `countTermLoop`: the number
of non-overlapping, left-to-right occurrences of `pat`, where the scan moves
one character at a time and, on finding an occurrence, restarts immediately
after its end.  The skip counter records how many characters of the current
occurrence remain to be stepped over. -/
def countOccurAux (pat : List Char) : List Char → Nat → Nat
  | [], _ => 0
  | c :: rest, 0 =>
    if isPrefixB pat (c :: rest) then 1 + countOccurAux pat rest (pat.length - 1)
    else countOccurAux pat rest 0
  | _ :: rest, k + 1 => countOccurAux pat rest k

/-- Number of non-overlapping, left-to-right occurrences of `pat` in `s`. -/
def countOccurSpec (pat s : List Char) : Nat :=
  countOccurAux pat s 0

/-- One utterance record of the embedded `TRANSCRIPTS` corpus.  The `text`
field is an `Option`: `none` models a missing/undefined `text` property on
the JavaScript object.  (`end` is a reserved word in Lean, so the `end`
field of the source record is called `endTime` here.) -/
structure Utterance where
  speaker : List Char
  speaker_type : List Char
  start : List Char
  endTime : List Char
  text : Option (List Char)
deriving DecidableEq

/-- One transcript record of the corpus. -/
structure Transcript where
  id : List Char
  name : List Char
  utterances : List Utterance
deriving DecidableEq

/-- The JavaScript error raised by calling a method on `undefined`. -/
inductive JsError where
  | typeError
deriving DecidableEq

/-- `matchesAllTerms` as invoked on a possibly missing text field.  With
`isCaseSensitive = false` the source first evaluates `text.toLowerCase()`,
which raises a `TypeError` when `text` is undefined; with
`isCaseSensitive = true` the raw value is used as `searchText` and the
`TypeError` is raised by the first `searchText.includes(...)` call, so an
empty term list returns `true` without dereferencing the text. -/
def matchesAllTermsJS (text : Option (List Char)) (terms : List SearchTerm)
    (isCaseSensitive : Bool) : Except JsError Bool :=
  if isCaseSensitive then
    match text, terms with
    | _, [] => Except.ok true
    | none, _ :: _ => Except.error JsError.typeError
    | some t, _ :: _ => Except.ok (matchesAllTerms t terms true)
  else
    match text with
    | none => Except.error JsError.typeError
    | some t => Except.ok (matchesAllTerms t terms false)

/-- `countMatches` as invoked on a possibly missing text field; the
`TypeError` cases mirror `matchesAllTermsJS` (with `isCaseSensitive = true`
and an undefined text, the first `searchText.indexOf(...)` call raises). -/
def countMatchesJS (text : Option (List Char)) (terms : List SearchTerm)
    (isCaseSensitive : Bool) : Except JsError Nat :=
  if isCaseSensitive then
    match text, terms with
    | _, [] => Except.ok 0
    | none, _ :: _ => Except.error JsError.typeError
    | some t, _ :: _ => Except.ok (countMatches t terms true)
  else
    match text with
    | none => Except.error JsError.typeError
    | some t => Except.ok (countMatches t terms false)

/-- A matching utterance as pushed onto `matchingUtterances` in
`performSearch`: the utterance spread together with its original position
`index` and its `matchCount`. -/
structure MatchedUtterance where
  utterance : Utterance
  index : Nat
  matchCount : Nat
deriving DecidableEq

/-- The inner loop of `performSearch` over one transcript's utterances,
starting at position `i`: apply the speaker filter
(`if (speakerFilter !== 'all' && utterance.speaker_type !== speakerFilter) continue`),
then `matchesAllTerms`; on a match, record the utterance with its index and
`countMatches` count and add the count to the transcript's running total. -/
def scanUtterances (terms : List SearchTerm) (isCaseSensitive : Bool)
    (speakerFilter : List Char) :
    List Utterance → Nat → Except JsError (List MatchedUtterance × Nat)
  | [], _ => Except.ok ([], 0)
  | u :: rest, i =>
    if speakerFilter ≠ chars "all" ∧ u.speaker_type ≠ speakerFilter then
      scanUtterances terms isCaseSensitive speakerFilter rest (i + 1)
    else
      match matchesAllTermsJS u.text terms isCaseSensitive with
      | Except.error e => Except.error e
      | Except.ok false => scanUtterances terms isCaseSensitive speakerFilter rest (i + 1)
      | Except.ok true =>
        match countMatchesJS u.text terms isCaseSensitive with
        | Except.error e => Except.error e
        | Except.ok c =>
          match scanUtterances terms isCaseSensitive speakerFilter rest (i + 1) with
          | Except.error e => Except.error e
          | Except.ok (ms, total) =>
            Except.ok (MatchedUtterance.mk u i c :: ms, c + total)

/-- One entry of the `results` array built by `performSearch`. -/
structure SearchResult where
  transcript : Transcript
  matchingUtterances : List MatchedUtterance
  totalMatches : Nat
deriving DecidableEq

/-- The outer loop of `performSearch` over the corpus: scan each
transcript's utterances and push a result exactly when the transcript has at
least one matching utterance, accumulating the global match total. -/
def searchCorpus (terms : List SearchTerm) (isCaseSensitive : Bool)
    (speakerFilter : List Char) :
    List Transcript → Except JsError (List SearchResult × Nat)
  | [] => Except.ok ([], 0)
  | t :: rest =>
    match scanUtterances terms isCaseSensitive speakerFilter t.utterances 0 with
    | Except.error e => Except.error e
    | Except.ok (ms, tm) =>
      match searchCorpus terms isCaseSensitive speakerFilter rest with
      | Except.error e => Except.error e
      | Except.ok (rs, total) =>
        if ms = [] then Except.ok (rs, total)
        else Except.ok (SearchResult.mk t ms tm :: rs, tm + total)

/-- Observable outcome of `performSearch`: either the empty UI state
(blank/unparsable query) or the result list with the displayed
`resultCount` (`results.length`) and `matchCount` (global total). -/
inductive SearchOutcome where
  | emptyState
  | results (rs : List SearchResult) (resultCount : Nat) (matchCount : Nat)
deriving DecidableEq

/-- `performSearch` from src/app.py: trim the input; an empty query or a
query that parses to zero terms shows the empty state; otherwise scan the
corpus and display `results.length` and the global match total. -/
def performSearch (query : List Char) (isCaseSensitive : Bool)
    (speakerFilter : List Char) (corpus : List Transcript) :
    Except JsError SearchOutcome :=
  let q := jsTrim query
  if q = [] then Except.ok SearchOutcome.emptyState
  else
    let terms := parseSearchQuery q
    if terms = [] then Except.ok SearchOutcome.emptyState
    else
      match searchCorpus terms isCaseSensitive speakerFilter corpus with
      | Except.error e => Except.error e
      | Except.ok (rs, total) =>
        Except.ok (SearchOutcome.results rs rs.length total)

/-- One block of HTML emitted by `renderUtterances`: either the
`context-indicator` gap marker or the rendered block of one matched
utterance. -/
inductive RenderedItem where
  | gapMarker
  | utteranceBlock (m : MatchedUtterance)
deriving DecidableEq

/-- The loop of `renderUtterances` in src/app.py, with `prev` the mutable
`prevIndex` variable (initialised to `-2`): before rendering a matched
utterance, emit the gap marker when `utterance.index > prevIndex + 1` and
`prevIndex >= 0`. -/
def renderLoop : List MatchedUtterance → Int → List RenderedItem
  | [], _ => []
  | m :: rest, prev =>
    (if prev + 1 < (m.index : Int) ∧ 0 ≤ prev then [RenderedItem.gapMarker] else []) ++
      (RenderedItem.utteranceBlock m :: renderLoop rest (m.index : Int))

/-- `renderUtterances` from src/app.py, abstracting the emitted HTML string
as the sequence of gap markers and utterance blocks. -/
def renderUtterances (ms : List MatchedUtterance) : List RenderedItem :=
  renderLoop ms (-2)

/-- Modelled from the spec, for comparison with `renderUtterances`: walk the
matched utterances in order, carrying the previous match's index (`none`
before the first match); emit a gap marker before the current utterance
exactly when a previous match exists and the current index is not exactly
the previous index plus one — never before the first match. -/
def renderSpec : Option Nat → List MatchedUtterance → List RenderedItem
  | _, [] => []
  | none, m :: rest => RenderedItem.utteranceBlock m :: renderSpec (some m.index) rest
  | some p, m :: rest =>
    (if m.index ≠ p + 1 then [RenderedItem.gapMarker] else []) ++
      (RenderedItem.utteranceBlock m :: renderSpec (some m.index) rest)

/-- The highlight wrapper `<mark class="highlight">$1</mark>` with `$1` the
matched text. -/
def wrapMark (matched : List Char) : List Char :=
  chars "<mark class=\"highlight\">" ++ matched ++ chars "</mark>"

/-- One `result.replace(regex, '<mark class="highlight">$1</mark>')` step of
`highlightTextInModal`: the regex is the literal-escaped term with flags
`g`/`gi`, so every non-overlapping leftmost occurrence of the term
(case-folded when `caseSensitive` is false) is wrapped, keeping the original
text of the match as `$1`. -/
def replaceAllMark (isCaseSensitive : Bool) (pat : List Char) :
    List Char → List Char
  | [] => []
  | c :: rest =>
    if isPrefixB (foldChars isCaseSensitive pat) (foldChars isCaseSensitive (c :: rest)) then
      wrapMark (List.take pat.length (c :: rest)) ++
        replaceAllMark isCaseSensitive pat (List.drop (pat.length - 1) rest)
    else c :: replaceAllMark isCaseSensitive pat rest
termination_by s => s.length
decreasing_by
  · have := List.length_drop (pat.length - 1) rest
    simp
    omega
  · simp

/-- `highlightTextInModal` from src/app.py: an empty (or absent) term list
returns the text unmodified; otherwise each term is applied in sequence,
skipping falsy (empty) terms. -/
def highlightTextInModal (text : List Char) (searchTerms : List (List Char))
    (isCaseSensitive : Bool) : List Char :=
  if searchTerms = [] then text
  else
    searchTerms.foldl
      (fun result term =>
        if term = [] then result else replaceAllMark isCaseSensitive term result)
      text

deriving instance DecidableEq for Except

/-- Spec-side qualification of one utterance: it passes the speaker filter
and its text contains every parsed term as a substring, after case
folding. -/
def utteranceQualifies (terms : List SearchTerm) (cs : Bool)
    (speakerFilter : List Char) (u : Utterance) : Prop :=
  (speakerFilter = chars "all" ∨ u.speaker_type = speakerFilter) ∧
  ∃ txt, u.text = some txt ∧ ∀ t ∈ terms, foldChars cs t.value <:+: foldChars cs txt

/-- A concrete utterance for test corpora and renderer inputs. -/
def sampleUtterance (speakerType : List Char) (text : Option (List Char)) : Utterance :=
  Utterance.mk (chars "Agent") speakerType (chars "0:00") (chars "0:01") text

/-- A concrete matched utterance at position `i`. -/
def sampleMatch (i : Nat) : MatchedUtterance :=
  MatchedUtterance.mk (sampleUtterance (chars "agent") (some [])) i 1

/-- A one-transcript corpus whose single agent utterance has a well-formed
text field. -/
def demoCorpus : List Transcript :=
  [Transcript.mk (chars "t1") (chars "call one")
    [Utterance.mk (chars "Agent") (chars "agent") (chars "0:00") (chars "0:02")
      (some (chars "Hello there"))]]

/-- A corpus with a single utterance whose text field is missing. -/
def corpusMissingText : List Transcript :=
  [Transcript.mk (chars "t1") (chars "call one")
    [Utterance.mk (chars "Agent") (chars "agent") (chars "0:00") (chars "0:01") none]]

/-! Correspondence of the boolean scans with the Mathlib prefix/infix
relations on lists. -/

theorem isPrefixB_iff : ∀ p s : List Char, isPrefixB p s = true ↔ p <+: s
  | [], s => by simp [isPrefixB]
  | a :: p, [] => by simp [isPrefixB]
  | a :: p, b :: s => by
    simp [isPrefixB, List.cons_prefix_cons, isPrefixB_iff p s]

theorem jsIncludes_iff : ∀ s pat : List Char, jsIncludes s pat = true ↔ pat <:+: s
  | [], pat => by
    simp [jsIncludes, isPrefixB_iff]
  | c :: rest, pat => by
    simp [jsIncludes, isPrefixB_iff, jsIncludes_iff rest pat, List.infix_cons_iff]

theorem matchesAllTerms_iff (text : List Char) (terms : List SearchTerm) (cs : Bool) :
    matchesAllTerms text terms cs = true ↔
      ∀ t ∈ terms, foldChars cs t.value <:+: foldChars cs text := by
  simp [matchesAllTerms, jsIncludes_iff]

theorem foldChars_ne_nil {cs : Bool} {v : List Char} (h : v ≠ []) :
    foldChars cs v ≠ [] := by
  cases cs <;> simp [foldChars, lowerStr, h]

/-! Equivalence of the `indexOf`-based counting loop of the source with the
character-by-character non-overlapping scan described by the spec. -/

theorem countOccurAux_skip (pat : List Char) :
    ∀ (s : List Char) (k : Nat), countOccurAux pat s k = countOccurAux pat (List.drop k s) 0
  | [], k => by simp [countOccurAux]
  | c :: rest, 0 => by simp
  | c :: rest, k + 1 => by
    rw [List.drop_succ_cons, ← countOccurAux_skip pat rest k]
    rfl

theorem countOccurAux_zero (pat : List Char) :
    ∀ s : List Char, firstMatchPos pat s = none → countOccurAux pat s 0 = 0
  | [] => fun _ => rfl
  | c :: rest => fun h => by
    by_cases hpre : isPrefixB pat (c :: rest) = true
    · simp [firstMatchPos, hpre] at h
    · simp only [firstMatchPos, hpre, if_false, Bool.false_eq_true, if_neg,
        Option.map_eq_none'] at h
      simp only [countOccurAux, hpre, Bool.false_eq_true, if_neg, if_false]
      exact countOccurAux_zero pat rest h

theorem countOccurAux_succ (pat : List Char) (hpat : pat ≠ []) :
    ∀ (s : List Char) (j : Nat), firstMatchPos pat s = some j →
      countOccurAux pat s 0 = 1 + countOccurAux pat (List.drop (j + pat.length) s) 0
  | [] => by
    intro j h
    simp [firstMatchPos, hpat] at h
  | c :: rest => by
    intro j h
    by_cases hpre : isPrefixB pat (c :: rest) = true
    · simp only [firstMatchPos, hpre, if_pos, if_true, Option.some.injEq] at h
      subst h
      simp only [countOccurAux, hpre, if_pos, if_true]
      rw [countOccurAux_skip pat rest (pat.length - 1)]
      have hlen : 0 + pat.length = (pat.length - 1) + 1 := by
        cases pat with
        | nil => exact absurd rfl hpat
        | cons a l => simp
      rw [hlen, List.drop_succ_cons]
    · simp only [firstMatchPos, hpre, Bool.false_eq_true, if_neg, if_false,
        Option.map_eq_some'] at h
      obtain ⟨j', hj', rfl⟩ := h
      simp only [countOccurAux, hpre, Bool.false_eq_true, if_neg, if_false]
      rw [countOccurAux_succ pat hpat rest j' hj']
      have harith : j' + 1 + pat.length = (j' + pat.length) + 1 := by omega
      rw [harith, List.drop_succ_cons]

theorem countTermLoop_eq_aux {pat : List Char} (hpat : pat ≠ []) (s : List Char) :
    ∀ (n pos : Nat), s.length + 1 - pos ≤ n →
      countTermLoop s pat pos = countOccurAux pat (List.drop pos s) 0 := by
  intro n
  induction n with
  | zero =>
    intro pos hn
    have hdrop : List.drop pos s = [] := List.drop_eq_nil_of_le (by omega)
    have hnone : jsIndexOf s pat pos = none := by
      simp [jsIndexOf, hdrop, firstMatchPos, hpat]
    rw [countTermLoop, dif_neg hpat]
    cases hfind : jsIndexOf s pat pos with
    | none =>
      simp only [hfind]
      rw [hdrop]
      rfl
    | some i =>
      rw [hnone] at hfind
      simp at hfind
  | succ n ih =>
    intro pos hn
    rw [countTermLoop, dif_neg hpat]
    cases hfind : jsIndexOf s pat pos with
    | none =>
      simp only [hfind]
      have hnone : firstMatchPos pat (List.drop pos s) = none := by
        simpa [jsIndexOf, Option.map_eq_none'] using hfind
      rw [countOccurAux_zero pat _ hnone]
    | some i =>
      simp only [hfind]
      obtain ⟨hle, hlt⟩ := jsIndexOf_some hpat hfind
      have hlen : 1 ≤ pat.length := by
        cases pat with
        | nil => exact absurd rfl hpat
        | cons a l => simp
      rw [ih (i + pat.length) (by omega)]
      obtain ⟨j, hj, hji⟩ : ∃ j, firstMatchPos pat (List.drop pos s) = some j ∧ j + pos = i := by
        simpa [jsIndexOf, Option.map_eq_some'] using hfind
      rw [countOccurAux_succ pat hpat _ j hj, List.drop_drop]
      have harith : pos + (j + pat.length) = i + pat.length := by omega
      rw [harith]

theorem countTermLoop_eq {pat : List Char} (hpat : pat ≠ []) (s : List Char) :
    countTermLoop s pat 0 = countOccurSpec pat s := by
  have h := countTermLoop_eq_aux hpat s (s.length + 1) 0 (by omega)
  simpa [countOccurSpec] using h

theorem foldl_add_eq_sum (f : SearchTerm → Nat) :
    ∀ (l : List SearchTerm) (a : Nat),
      l.foldl (fun c t => c + f t) a = a + (l.map f).sum
  | [], a => by simp
  | t :: l, a => by
    rw [List.foldl_cons, foldl_add_eq_sum f l (a + f t)]
    simp
    omega

/-! The transcript scanner on well-formed corpora: a transcript contributes
a result exactly when one of its utterances passes the speaker filter and
contains every term. -/

theorem matchesAllTermsJS_some (t : List Char) (terms : List SearchTerm) (cs : Bool) :
    matchesAllTermsJS (some t) terms cs = Except.ok (matchesAllTerms t terms cs) := by
  cases cs <;> cases terms <;> rfl

theorem countMatchesJS_some (t : List Char) (terms : List SearchTerm) (cs : Bool) :
    countMatchesJS (some t) terms cs = Except.ok (countMatches t terms cs) := by
  cases cs <;> cases terms <;> rfl

theorem exists_mem_cons_not {α : Type} {p : α → Prop} {u : α} {l : List α}
    (hu : ¬ p u) : (∃ v ∈ u :: l, p v) ↔ ∃ v ∈ l, p v := by
  simp only [List.mem_cons]
  constructor
  · rintro ⟨v, rfl | hv, hq⟩
    · exact absurd hq hu
    · exact ⟨v, hv, hq⟩
  · rintro ⟨v, hv, hq⟩
    exact ⟨v, Or.inr hv, hq⟩

theorem scanUtterances_ok (terms : List SearchTerm) (cs : Bool) (f : List Char) :
    ∀ (us : List Utterance) (i : Nat), (∀ u ∈ us, u.text ≠ none) →
      ∃ ms tm, scanUtterances terms cs f us i = Except.ok (ms, tm) ∧
        (ms ≠ [] ↔ ∃ u ∈ us, utteranceQualifies terms cs f u)
  | [], i, _ => ⟨[], 0, rfl, by simp⟩
  | u :: rest, i, hwf => by
    have hwf' : ∀ v ∈ rest, v.text ≠ none :=
      fun v hv => hwf v (List.mem_cons_of_mem _ hv)
    obtain ⟨ms, tm, hscan, hiff⟩ := scanUtterances_ok terms cs f rest (i + 1) hwf'
    by_cases hskip : f ≠ chars "all" ∧ u.speaker_type ≠ f
    · have hqu : ¬ utteranceQualifies terms cs f u := by
        rintro ⟨hpass, -⟩
        exact hskip.2 (hpass.resolve_left hskip.1)
      refine ⟨ms, tm, ?_, ?_⟩
      · rw [scanUtterances, if_pos hskip]
        exact hscan
      · rw [hiff, exists_mem_cons_not hqu]
    · cases htext : u.text with
      | none => exact absurd htext (hwf u (List.mem_cons_self _ _))
      | some txt =>
        rw [scanUtterances, if_neg hskip, htext, matchesAllTermsJS_some,
          countMatchesJS_some]
        cases hm : matchesAllTerms txt terms cs with
        | false =>
          have hqu : ¬ utteranceQualifies terms cs f u := by
            rintro ⟨-, txt', htxt', hall⟩
            rw [htext, Option.some.injEq] at htxt'
            subst htxt'
            have htrue : matchesAllTerms txt terms cs = true :=
              (matchesAllTerms_iff txt terms cs).mpr hall
            rw [hm] at htrue
            cases htrue
          refine ⟨ms, tm, hscan, ?_⟩
          rw [hiff, exists_mem_cons_not hqu]
        | true =>
          have hpass : f = chars "all" ∨ u.speaker_type = f := by
            by_cases hf : f = chars "all"
            · exact Or.inl hf
            · right
              by_contra hs
              exact hskip ⟨hf, hs⟩
          refine ⟨MatchedUtterance.mk u i (countMatches txt terms cs) :: ms,
            countMatches txt terms cs + tm, ?_, ?_⟩
          · rw [hscan]
          · constructor
            · intro _
              exact ⟨u, List.mem_cons_self _ _, hpass, txt, htext,
                (matchesAllTerms_iff txt terms cs).mp hm⟩
            · intro _
              simp

theorem searchCorpus_spec (terms : List SearchTerm) (cs : Bool) (f : List Char) :
    ∀ corpus : List Transcript,
      (∀ tr ∈ corpus, ∀ u ∈ tr.utterances, u.text ≠ none) →
      ∃ rs total, searchCorpus terms cs f corpus = Except.ok (rs, total) ∧
        (∀ r ∈ rs, r.matchingUtterances ≠ [] ∧
          ∃ u ∈ r.transcript.utterances, utteranceQualifies terms cs f u) ∧
        (∀ tr ∈ corpus, (∃ u ∈ tr.utterances, utteranceQualifies terms cs f u) →
          ∃ r ∈ rs, r.transcript = tr)
  | [], _ => ⟨[], 0, rfl, by simp, by simp⟩
  | t :: rest, hwf => by
    obtain ⟨ms, tm, hscan, hiff⟩ :=
      scanUtterances_ok terms cs f t.utterances 0 (hwf t (List.mem_cons_self _ _))
    obtain ⟨rs, total, hrec, hall, hcompl⟩ :=
      searchCorpus_spec terms cs f rest (fun tr htr => hwf tr (List.mem_cons_of_mem _ htr))
    have hcorp : searchCorpus terms cs f (t :: rest) =
        if ms = [] then Except.ok (rs, total)
        else Except.ok (SearchResult.mk t ms tm :: rs, tm + total) := by
      rw [searchCorpus, hscan, hrec]
    by_cases hms : ms = []
    · rw [if_pos hms] at hcorp
      refine ⟨rs, total, hcorp, hall, ?_⟩
      intro tr htr hq
      rcases List.mem_cons.mp htr with rfl | htr'
      · exact absurd (hiff.mpr hq) (by simp [hms])
      · exact hcompl tr htr' hq
    · rw [if_neg hms] at hcorp
      refine ⟨SearchResult.mk t ms tm :: rs, tm + total, hcorp, ?_, ?_⟩
      · intro r hr
        rcases List.mem_cons.mp hr with rfl | hr'
        · exact ⟨hms, hiff.mp hms⟩
        · exact hall r hr'
      · intro tr htr hq
        rcases List.mem_cons.mp htr with rfl | htr'
        · exact ⟨SearchResult.mk tr ms tm, List.mem_cons_self _ _, rfl⟩
        · obtain ⟨r, hr, hrt⟩ := hcompl tr htr' hq
          exact ⟨r, List.mem_cons_of_mem _ hr, hrt⟩

/-! Claim theorems. -/

/-- C1: for every corpus whose utterances all carry a text field, every
query that parses to a non-empty term list, every speaker filter and every
case-sensitivity flag, `performSearch` succeeds and a transcript of the
corpus appears in its results iff at least one of its utterances passes the
speaker filter and contains every parsed term as a substring (AND
semantics); moreover every emitted result carries a non-empty
matching-utterance list, so a transcript with zero qualifying utterances is
omitted entirely rather than shown with zero matches. -/
theorem search_results_iff_qualifying_utterance
    (query : List Char) (cs : Bool) (speakerFilter : List Char)
    (corpus : List Transcript)
    (hterms : parseSearchQuery (jsTrim query) ≠ [])
    (hwf : ∀ tr ∈ corpus, ∀ u ∈ tr.utterances, u.text ≠ none) :
    ∃ rs total,
      performSearch query cs speakerFilter corpus =
        Except.ok (SearchOutcome.results rs rs.length total) ∧
      (∀ r ∈ rs, r.matchingUtterances ≠ []) ∧
      ∀ tr ∈ corpus,
        ((∃ r ∈ rs, r.transcript = tr) ↔
          ∃ u ∈ tr.utterances,
            utteranceQualifies (parseSearchQuery (jsTrim query)) cs speakerFilter u) := by
  have hq : jsTrim query ≠ [] := by
    intro h
    apply hterms
    rw [h]
    rfl
  obtain ⟨rs, total, hsc, hall, hcompl⟩ :=
    searchCorpus_spec (parseSearchQuery (jsTrim query)) cs speakerFilter corpus hwf
  refine ⟨rs, total, ?_, fun r hr => (hall r hr).1, ?_⟩
  · simp only [performSearch]
    rw [if_neg hq, if_neg hterms, hsc]
  · intro tr htr
    constructor
    · rintro ⟨r, hr, rfl⟩
      exact (hall r hr).2
    · exact hcompl tr htr

/-- Witness for C1 at a concrete query and corpus. -/
theorem search_results_iff_qualifying_utterance_witness :
    (parseSearchQuery (jsTrim (chars "ell")) ≠ [] ∧
      ∀ tr ∈ demoCorpus, ∀ u ∈ tr.utterances, u.text ≠ none) ∧
    (∃ rs total,
      performSearch (chars "ell") false (chars "all") demoCorpus =
        Except.ok (SearchOutcome.results rs rs.length total) ∧
      (∀ r ∈ rs, r.matchingUtterances ≠ []) ∧
      ∀ tr ∈ demoCorpus,
        ((∃ r ∈ rs, r.transcript = tr) ↔
          ∃ u ∈ tr.utterances,
            utteranceQualifies (parseSearchQuery (jsTrim (chars "ell"))) false
              (chars "all") u)) :=
  ⟨⟨by decide, by decide⟩,
    search_results_iff_qualifying_utterance (chars "ell") false (chars "all")
      demoCorpus (by decide) (by decide)⟩

/-- C2 counterexample: `matchesAllTerms` applied to an empty term list
returns `true` on a concrete text and flag, not `false` as the claim
states. -/
theorem matchesAllTerms_nil_fail_open :
    matchesAllTerms (chars "abc") [] false = true := by decide

/-- C2 amended: `matchesAllTerms` applied to an empty term list returns
`true` for every text and flag (the AND loop over the terms is vacuous, so
the function fails open); however `performSearch` never invokes it with an
empty term list, because it shows the empty state whenever the trimmed
query parses to zero terms. -/
theorem matchesAllTerms_nil_vacuous_true :
    (∀ (text : List Char) (cs : Bool), matchesAllTerms text [] cs = true) ∧
    (∀ (query : List Char) (cs : Bool) (speakerFilter : List Char)
        (corpus : List Transcript),
      parseSearchQuery (jsTrim query) = [] →
      performSearch query cs speakerFilter corpus = Except.ok SearchOutcome.emptyState) := by
  constructor
  · intro text cs
    rfl
  · intro query cs speakerFilter corpus hparse
    by_cases hq : jsTrim query = []
    · simp only [performSearch]
      rw [if_pos hq]
    · simp only [performSearch]
      rw [if_neg hq, if_pos hparse]

/-- Witness for C2's amended claim at a concrete query. -/
theorem matchesAllTerms_nil_vacuous_true_witness :
    parseSearchQuery (jsTrim (chars ";;")) = [] ∧
    performSearch (chars ";;") false (chars "all") demoCorpus =
      Except.ok SearchOutcome.emptyState :=
  ⟨by decide,
    matchesAllTerms_nil_vacuous_true.2 (chars ";;") false (chars "all") demoCorpus
      (by decide)⟩

/-- C3 counterexample: parsing the query consisting of two adjacent double
quotes does not yield zero terms. -/
theorem parse_double_quote_cex :
    parseSearchQuery (chars "\"\"") ≠ [] := by decide

/-- C3 amended: parsing `""` yields no phrase term — the empty phrase is
rejected because the quote pattern requires non-empty content — but the two
unconsumed quote characters remain in the working string and become one
keyword term whose value is the two-character string consisting of the two
quotes; one term is produced, not zero. -/
theorem parse_double_quote_keyword :
    parseSearchQuery (chars "\"\"") =
      [SearchTerm.mk TermType.keyword (chars "\"\"")] := by decide

/-- C4 counterexample: parsing the mixed query does not produce the order
phrase, keyword, phrase claimed by the spec example. -/
theorem parse_mixed_query_cex :
    parseSearchQuery (chars "\"a b\";c;\"d\"") ≠
      [SearchTerm.mk TermType.phrase (chars "a b"),
       SearchTerm.mk TermType.keyword (chars "c"),
       SearchTerm.mk TermType.phrase (chars "d")] := by decide

/-- C4 amended: parsing the mixed query yields exactly the three terms
phrase `a b`, phrase `d`, keyword `c` — the same terms with the quotes
stripped from phrase values, but ordered with all phrases first (in order
of appearance) and keywords after. -/
theorem parse_mixed_query_phrases_first :
    parseSearchQuery (chars "\"a b\";c;\"d\"") =
      [SearchTerm.mk TermType.phrase (chars "a b"),
       SearchTerm.mk TermType.phrase (chars "d"),
       SearchTerm.mk TermType.keyword (chars "c")] := by decide

/-- C5: for every text, non-empty term list of non-empty values, and flag,
`countMatches` returns the sum over all terms of the number of
non-overlapping, left-to-right occurrences of the term's (case-folded)
value in the (case-folded) text, where scanning restarts immediately after
the end of each found occurrence; in particular on text `aaa` with the
single keyword `aa` it returns 1. -/
theorem countMatches_sum_nonoverlapping :
    (∀ (text : List Char) (terms : List SearchTerm) (cs : Bool),
      terms ≠ [] → (∀ t ∈ terms, t.value ≠ []) →
      countMatches text terms cs =
        (terms.map fun t =>
          countOccurSpec (foldChars cs t.value) (foldChars cs text)).sum) ∧
    countMatches (chars "aaa") [SearchTerm.mk TermType.keyword (chars "aa")] false = 1 := by
  have key : ∀ (text : List Char) (terms : List SearchTerm) (cs : Bool),
      (∀ t ∈ terms, t.value ≠ []) →
      countMatches text terms cs =
        (terms.map fun t =>
          countOccurSpec (foldChars cs t.value) (foldChars cs text)).sum := by
    intro text terms cs hvals
    simp only [countMatches]
    rw [foldl_add_eq_sum
      (fun t => countTermLoop (foldChars cs text) (foldChars cs t.value) 0) terms 0]
    rw [Nat.zero_add]
    congr 1
    apply List.map_congr_left
    intro t ht
    exact countTermLoop_eq (foldChars_ne_nil (hvals t ht)) _
  refine ⟨fun text terms cs _ hvals => key text terms cs hvals, ?_⟩
  rw [key (chars "aaa") [SearchTerm.mk TermType.keyword (chars "aa")] false (by decide)]
  decide

/-- Witness for C5's universal part at a concrete text and term list. -/
theorem countMatches_sum_nonoverlapping_witness :
    ([SearchTerm.mk TermType.keyword (chars "b")] ≠ [] ∧
      ∀ t ∈ [SearchTerm.mk TermType.keyword (chars "b")], t.value ≠ []) ∧
    countMatches (chars "abba") [SearchTerm.mk TermType.keyword (chars "b")] false =
      ([SearchTerm.mk TermType.keyword (chars "b")].map fun t =>
        countOccurSpec (foldChars false t.value) (foldChars false (chars "abba"))).sum :=
  ⟨⟨by decide, by decide⟩,
    countMatches_sum_nonoverlapping.1 (chars "abba")
      [SearchTerm.mk TermType.keyword (chars "b")] false (by decide) (by decide)⟩

/-- C6: when the speaker filter is `agent`, scanning a transcript whose
next utterance has speaker type `customer` is identical to scanning without
that utterance (position still advanced): the skipped utterance contributes
no matching-utterance entry and nothing to the transcript or global match
totals — and symmetrically for filter `customer` against agent
utterances. -/
theorem speaker_filter_skips_utterance (terms : List SearchTerm) (cs : Bool)
    (u : Utterance) (rest : List Utterance) (i : Nat) :
    (u.speaker_type = chars "customer" →
      scanUtterances terms cs (chars "agent") (u :: rest) i =
        scanUtterances terms cs (chars "agent") rest (i + 1)) ∧
    (u.speaker_type = chars "agent" →
      scanUtterances terms cs (chars "customer") (u :: rest) i =
        scanUtterances terms cs (chars "customer") rest (i + 1)) := by
  constructor
  · intro h
    rw [scanUtterances, if_pos ⟨by decide, by rw [h]; decide⟩]
  · intro h
    rw [scanUtterances, if_pos ⟨by decide, by rw [h]; decide⟩]

/-- Witness for C6 at a concrete utterance. -/
theorem speaker_filter_skips_utterance_witness :
    (sampleUtterance (chars "customer") (some (chars "hi"))).speaker_type =
      chars "customer" ∧
    scanUtterances [] false (chars "agent")
        [sampleUtterance (chars "customer") (some (chars "hi"))] 0 =
      scanUtterances [] false (chars "agent") [] 1 :=
  ⟨by decide,
    (speaker_filter_skips_utterance [] false
      (sampleUtterance (chars "customer") (some (chars "hi"))) [] 0).1 (by decide)⟩

theorem renderLoop_eq_renderSpec :
    ∀ (rest : List MatchedUtterance) (p : Nat),
      List.Chain' (fun a b => a.index < b.index) rest →
      (∀ m, rest.head? = some m → p < m.index) →
      renderLoop rest (p : Int) = renderSpec (some p) rest
  | [], _, _, _ => rfl
  | m :: rest', p, hchain, hhead => by
    have hp : p < m.index := hhead m rfl
    have hch' : List.Chain' (fun a b => a.index < b.index) rest' := hchain.tail
    have hnext : ∀ m', rest'.head? = some m' → m.index < m'.index := by
      intro m' hm'
      cases rest' with
      | nil => simp at hm'
      | cons b l =>
        simp only [List.head?_cons, Option.some.injEq] at hm'
        subst hm'
        exact (List.chain'_cons.mp hchain).1
    have ih := renderLoop_eq_renderSpec rest' m.index hch' hnext
    rw [renderLoop, renderSpec, ih]
    by_cases hidx : m.index = p + 1
    · have h1 : ¬ ((p : Int) + 1 < (m.index : Int) ∧ 0 ≤ (p : Int)) := by omega
      have h2 : ¬ (m.index ≠ p + 1) := by simp [hidx]
      rw [if_neg h1, if_neg h2]
    · have h1 : (p : Int) + 1 < (m.index : Int) ∧ 0 ≤ (p : Int) := by
        constructor <;> omega
      rw [if_pos h1, if_pos hidx]

/-- C7: on every position-ordered matched-utterance list, the renderer
coincides with the spec renderer that emits a gap marker before a matched
utterance exactly when a previous match exists and the utterance's index is
not the previous index plus one (never before the first match); in
particular for matched indices 2, 3, 7 exactly one gap marker is emitted,
between index 3 and index 7. -/
theorem render_gap_marker_spec :
    (∀ ms : List MatchedUtterance,
      List.Chain' (fun a b => a.index < b.index) ms →
      renderUtterances ms = renderSpec none ms) ∧
    renderUtterances [sampleMatch 2, sampleMatch 3, sampleMatch 7] =
      [RenderedItem.utteranceBlock (sampleMatch 2),
       RenderedItem.utteranceBlock (sampleMatch 3),
       RenderedItem.gapMarker,
       RenderedItem.utteranceBlock (sampleMatch 7)] := by
  constructor
  · intro ms hchain
    cases ms with
    | nil => rfl
    | cons m rest =>
      have hnext : ∀ m', rest.head? = some m' → m.index < m'.index := by
        intro m' hm'
        cases rest with
        | nil => simp at hm'
        | cons b l =>
          simp only [List.head?_cons, Option.some.injEq] at hm'
          subst hm'
          exact (List.chain'_cons.mp hchain).1
      have hfirst : ¬ ((-2 : Int) + 1 < (m.index : Int) ∧ 0 ≤ (-2 : Int)) := by omega
      rw [renderUtterances, renderLoop, renderSpec, if_neg hfirst,
        renderLoop_eq_renderSpec rest m.index hchain.tail hnext]
      rfl
  · decide

/-- Witness for C7's universal part at the concrete index list 2, 3, 7. -/
theorem render_gap_marker_spec_witness :
    List.Chain' (fun a b => a.index < b.index)
      [sampleMatch 2, sampleMatch 3, sampleMatch 7] ∧
    renderUtterances [sampleMatch 2, sampleMatch 3, sampleMatch 7] =
      renderSpec none [sampleMatch 2, sampleMatch 3, sampleMatch 7] :=
  ⟨by simp [List.chain'_cons, sampleMatch],
    render_gap_marker_spec.1 _ (by simp [List.chain'_cons, sampleMatch])⟩

/-- C8 (code bug): on a corpus containing an utterance with a missing text
field, the search raises instead of treating the text as empty:
`matchesAllTerms` evaluates `text.toLowerCase()` on the undefined field, the
resulting `TypeError` propagates, and `performSearch` aborts rather than
continuing the scan. -/
theorem missing_text_search_raises :
    performSearch (chars "a") false (chars "all") corpusMissingText =
      Except.error JsError.typeError := by decide

/-- C9: the modal highlight operation applied with an empty term list
returns the text unmodified, for every text and flag. -/
theorem highlight_empty_term_list_id :
    ∀ (text : List Char) (cs : Bool), highlightTextInModal text [] cs = text := by
  intro text cs
  rfl

theorem scanPhrases_ne_nil :
    ∀ (s : List Char) (acc : Option (List Char)), ∀ c ∈ scanPhrases s acc, c ≠ []
  | [], _ => by simp [scanPhrases]
  | c :: rest, none => by
    by_cases hq : c = '"'
    · rw [scanPhrases, if_pos hq]
      exact scanPhrases_ne_nil rest (some [])
    · rw [scanPhrases, if_neg hq]
      exact scanPhrases_ne_nil rest none
  | c :: rest, some acc => by
    by_cases hq : c = '"'
    · by_cases hacc : acc = []
      · rw [scanPhrases, if_pos hq, if_pos hacc]
        exact scanPhrases_ne_nil rest (some [])
      · rw [scanPhrases, if_pos hq, if_neg hacc]
        intro x hx
        rcases List.mem_cons.mp hx with rfl | hx'
        · simpa using hacc
        · exact scanPhrases_ne_nil rest none x hx'
    · rw [scanPhrases, if_neg hq]
      exact scanPhrases_ne_nil rest (some (c :: acc))

/-- C10: every term produced by the query parser has a non-empty value —
phrase contents are captured by a pattern requiring at least one character
and keyword pieces are discarded when empty — so `countMatches`, whose scan
of an empty-valued term would not terminate, is never invoked with one. -/
theorem parsed_terms_nonempty_value :
    ∀ (query : List Char) (t : SearchTerm), t ∈ parseSearchQuery query →
      t.value ≠ [] := by
  intro query t ht
  simp only [parseSearchQuery] at ht
  rcases List.mem_append.mp ht with h | h
  · obtain ⟨content, hc, rfl⟩ := List.mem_map.mp h
    exact scanPhrases_ne_nil query none content hc
  · obtain ⟨part, hp, rfl⟩ := List.mem_map.mp h
    have hlen : 0 < part.length := by simpa using (List.mem_filter.mp hp).2
    exact List.length_pos.mp hlen

/-- Witness for C10 at a concrete query and term. -/
theorem parsed_terms_nonempty_value_witness :
    SearchTerm.mk TermType.keyword (chars "x") ∈ parseSearchQuery (chars "x") ∧
    (SearchTerm.mk TermType.keyword (chars "x")).value ≠ [] :=
  ⟨by decide, parsed_terms_nonempty_value (chars "x") _ (by decide)⟩

end TranscriptSearch
